import Mathlib

/-!
Verification of the quickjs-zig build orchestrator (the unnamed build script,
`src/unnamed/part_000`) against its natural-language specification.

Strings are shallowly embedded as `List Char` (`Str`).  The script's string
primitives `String.prototype.includes` and `String.prototype.replace` with a
string pattern (replace first occurrence, literal replacement — none of the
replacement texts in the script contain `$` substitution patterns) are
modelled by `hasSubstr` and `replaceFirst`.
-/

set_option autoImplicit false
set_option maxRecDepth 10000

namespace QJZ

/-- Strings, embedded as lists of characters. -/
abbrev Str := List Char

/-- `s.includes(pat)` — JavaScript substring containment.  An empty pattern is
contained in every string, as in JavaScript. -/
def hasSubstr (s pat : Str) : Bool :=
  pat.isPrefixOf s ||
    match s with
    | [] => false
    | _ :: t => hasSubstr t pat

/-- `s.replace(pat, rep)` with a string pattern: replace the first (leftmost)
occurrence of `pat` by `rep`; if `pat` does not occur, return `s` unchanged.
For an empty pattern JavaScript inserts `rep` at position 0, which the
`isPrefixOf` case reproduces. -/
def replaceFirst (s pat rep : Str) : Str :=
  if pat.isPrefixOf s then rep ++ s.drop pat.length
  else
    match s with
    | [] => []
    | c :: t => c :: replaceFirst t pat rep

/-! ## STAGE 0 patch transforms (part_000 lines 127–172)

The pure content transforms applied to the three vendor files.  File-system
effects (backups, existence guards) are modelled separately below. -/

/-- Marker of patch 1: `'#include <process.h>'` (line 131). -/
def procIncludeMarker : Str := "#include <process.h>".data

/-- Text prepended by patch 1 (line 132). -/
def winGuardBlock : Str := "#if defined(_WIN32)\n#include <process.h>\n#endif\n".data

/-- Anchor `'#include "quickjs-libc.h"'` used by the declaration insertions
(lines 137 and 166). -/
def libcHAnchor : Str := "#include \"quickjs-libc.h\"".data

/-- The forward declaration inserted for a custom module `name`
(lines 136 and 164). -/
def declOf (name : Str) : Str :=
  "JSModuleDef *js_init_module_".data ++ name ++
    "(JSContext *ctx, const char *module_name);".data

/-- Marker of the subprocess-shim insertion: `'js_os_exec_win32'` (line 142). -/
def execWin32Marker : Str := "js_os_exec_win32".data

/-- Anchor `'static JSClassDef js_worker_class = {'` before which the shim is
inserted (line 143). -/
def workerAnchor : Str := "static JSClassDef js_worker_class = \x7b".data

/-- The single-family function-table entry that is replaced (line 145). -/
def oldEntry : Str := "    JS_CFUNC_DEF(\"exec\", 1, js_os_exec ),".data

/-- The two-branch function-table entry that replaces it (line 146). -/
def newEntry : Str :=
  ("#if defined(_WIN32)\n    JS_CFUNC_DEF(\"exec\", 1, js_os_exec_win32 ),\n#else\n" ++
   "    JS_CFUNC_DEF(\"exec\", 1, js_os_exec ),\n#endif").data

/-- The registration call inserted into `qjs.c` for module `name` (line 165). -/
def callOf (name : Str) : Str :=
  "js_init_module_".data ++ name ++ "(ctx, \"".data ++ name ++ "\");".data

/-- Anchor for the registration call insertion (line 167). -/
def initOsAnchor : Str := "js_init_module_os(ctx, \"os\");".data

/-- The `qjsc.c` namelist entry for module `name` (line 161). -/
def namelistOf (name : Str) : Str :=
  "namelist_add(&cmodule_list, \"".data ++ name ++ "\", \"".data ++ name ++
    "\", 0);".data

/-- Anchor for the namelist insertion (line 162). -/
def namelistOsAnchor : Str := "namelist_add(&cmodule_list, \"os\", \"os\", 0);".data

/-- Lines 131–133: prepend the `_WIN32` `process.h` guard unless its marker is
already present. -/
def patchProcInclude (content : Str) : Str :=
  if hasSubstr content procIncludeMarker then content
  else winGuardBlock ++ content

/-- Lines 135–138: for each custom module, insert its forward declaration after
the first `#include "quickjs-libc.h"` unless the declaration is already
present. -/
def patchLibcDecls (mods : List Str) (content : Str) : Str :=
  mods.foldl
    (fun c name =>
      let decl := declOf name
      if hasSubstr c decl then c
      else replaceFirst c libcHAnchor (libcHAnchor ++ "\n\n".data ++ decl))
    content

/-- Lines 140–148 (with `src/exec.c` present and of content `impl`): insert the
shim before the worker-class anchor unless `js_os_exec_win32` occurs, then
replace the function-table entry whenever the old entry occurs. -/
def patchLibcExec (impl : Str) (content : Str) : Str :=
  let c :=
    if hasSubstr content execWin32Marker then content
    else replaceFirst content workerAnchor (impl ++ "\n".data ++ workerAnchor)
  if hasSubstr c oldEntry then replaceFirst c oldEntry newEntry else c

/-- The full content transform applied to `quickjs-libc.c` (lines 129–149);
`execImpl` is `some` the content of `src/exec.c` when that file exists. -/
def patchLibc (mods : List Str) (execImpl : Option Str) (content : Str) : Str :=
  let c := patchProcInclude content
  let c := patchLibcDecls mods c
  match execImpl with
  | none => c
  | some impl => patchLibcExec impl c

/-- The content transform applied to `qjs.c` (lines 159–168, `isQjsc` false):
per module, insert the forward declaration and the registration call. -/
def patchQjs (mods : List Str) (content : Str) : Str :=
  mods.foldl
    (fun c name =>
      let decl := declOf name
      let call := callOf name
      let c :=
        if hasSubstr c decl then c
        else replaceFirst c libcHAnchor (libcHAnchor ++ "\n\n".data ++ decl)
      if hasSubstr c call then c
      else replaceFirst c initOsAnchor (initOsAnchor ++ "\n    ".data ++ call))
    content

/-- The content transform applied to `qjsc.c` (lines 159–162, `isQjsc` true):
per module, insert the namelist entry. -/
def patchQjsc (mods : List Str) (content : Str) : Str :=
  mods.foldl
    (fun c name =>
      let entry := namelistOf name
      if hasSubstr c entry then c
      else replaceFirst c namelistOsAnchor (namelistOsAnchor ++ "\n    ".data ++ entry))
    content

/-! ### C1: the patching stage is not byte-idempotent -/

/-- A pristine `quickjs-libc.c` fragment containing the three anchors the libc
patches look for, in the order they occur in the vendored file. -/
def pristineLibcSample : Str :=
  libcHAnchor ++ "\n".data ++ oldEntry ++ "\n".data ++ workerAnchor ++ "\n".data

/-- A stand-in for the content of `src/exec.c` (it contains neither
`js_os_exec_win32` nor the old function-table entry, as the real file does
not). -/
def execImplSample : Str := "/* win32 exec shim */".data

/-- C1: applying the full patching stage twice to a pristine vendor file does
NOT produce byte-identical content to applying it once.  The first run
replaces the function-table entry by a two-branch block whose `#else` branch
still contains the old entry verbatim; the second run's guard
`content.includes(oldEntry)` (line 147) therefore fires again and nests
another two-branch block inside the first.  This refutes the claim that a
second run detects each patch's marker and leaves the file untouched. -/
theorem patchLibc_not_idempotent :
    patchLibc [] (some execImplSample)
        (patchLibc [] (some execImplSample) pristineLibcSample) ≠
      patchLibc [] (some execImplSample) pristineLibcSample := by decide

/-! ## Platform tree resolver (`processDirectory`, part_000 lines 40–94)

A single directory level is modelled as the list of its file names (the value
of `readdirSync(currentDir)`); subdirectories recurse with the same per-level
rule (lines 49–51), so the per-level model captures every level of the tree. -/

/-- The recognized OS families, `knownPlats` (line 54). -/
def knownPlats : List Str := ["win32".data, "darwin".data, "linux".data]

/-- JavaScript `String.prototype.endsWith`. -/
def endsWithL (s t : Str) : Bool := decide (t <:+ s)

/-- `file.split('.')` (line 57). -/
def splitOnDot : Str → List Str
  | [] => [[]]
  | c :: rest =>
    if c = '.' then [] :: splitOnDot rest
    else
      match splitOnDot rest with
      | [] => [[c]]
      | h :: t => (c :: h) :: t

/-- `file.replace(/\.mjs$/, '.' + targetPlat + '.mjs')` (line 68): substitute
the trailing `.mjs` when present; names not ending in `.mjs` (in particular
every `.js` name) are returned unchanged. -/
def mjsSpecName (targetPlat file : Str) : Str :=
  if endsWithL file ".mjs".data then
    file.take (file.length - 4) ++ ('.' :: targetPlat) ++ ".mjs".data
  else file

/-- `parts[parts.length - 2]` when `parts.length > 2`, else `null` (line 58). -/
def filePlatOf (file : Str) : Option Str :=
  let parts := splitOnDot file
  if 2 < parts.length then some (parts.getD (parts.length - 2) []) else none

/-- The per-file keep/drop decision of `processDirectory` for a non-directory
entry (lines 53–92): `true` when the file is written into the build tree
(either as a rewritten script, line 88, or as a copied asset, line 91), and
`false` when one of the two `return` guards drops it (lines 61–63, 67–72). -/
def keepsFile (filesInSource : List Str) (targetPlat file : Str) : Bool :=
  if endsWithL file ".mjs".data || endsWithL file ".js".data then
    -- line 61: skip files belonging to other recognized platforms
    if (match filePlatOf file with
        | some fp => decide (fp ∈ knownPlats) && !decide (fp = targetPlat)
        | none => false) then false
    -- lines 67–72: skip a generic file when its specific sibling is listed
    else if (match filePlatOf file with
         | some fp => !decide (fp ∈ knownPlats)
         | none => true) &&
        decide (mjsSpecName targetPlat file ∈ filesInSource) then false
    else true
  else true

/-- One directory level of resolution: from the (name, content) entries of a
source directory, the (name, content) files written into the corresponding
build directory.  A kept script (`.mjs`/`.js`) gets its imports rewritten
(lines 74–88) against the existence oracle `ex`; a kept asset is copied
byte-for-byte (line 91).  `rewrite` abstracts the content transform. -/
def resolveListing (rewrite : Str → Str) (targetPlat : Str)
    (entries : List (Str × Str)) : List (Str × Str) :=
  let names := entries.map Prod.fst
  entries.filterMap fun e =>
    if keepsFile names targetPlat e.1 then
      some (e.1,
        if endsWithL e.1 ".mjs".data || endsWithL e.1 ".js".data then rewrite e.2
        else e.2)
    else none

/-- C4: a generic `.js` script with NO platform-specific sibling is dropped
anyway.  `'a.js'.replace(/\.mjs$/, '.linux.mjs')` leaves the name unchanged,
so the sibling test `filesInSource.includes(specFile)` finds the file itself
and the generic-file guard (lines 67–72) always fires for `.js` names.  The
claim says the generic file is copied when no specific sibling exists. -/
theorem genericJs_dropped_without_sibling :
    keepsFile ["a.js".data] "linux".data "a.js".data = false ∧
      ("a.linux.js".data ∈ ["a.js".data]) = False ∧
      resolveListing id "linux".data [("a.js".data, "content".data)] = [] := by
  refine ⟨by decide, by decide, by decide⟩

/-! ### Lemmas about `splitOnDot` and the platform-suffix decision -/

theorem splitOnDot_ne_nil (s : Str) : splitOnDot s ≠ [] := by
  induction s with
  | nil => simp [splitOnDot]
  | cons c t ih =>
    simp only [splitOnDot]
    split
    · simp
    · cases h : splitOnDot t with
      | nil => simp
      | cons h' t' => simp

theorem splitOnDot_append (a b : Str) :
    splitOnDot (a ++ '.' :: b) = splitOnDot a ++ splitOnDot b := by
  induction a with
  | nil => simp [splitOnDot]
  | cons c t ih =>
    by_cases hc : c = '.'
    · subst hc
      simp [splitOnDot, ih]
    · simp only [List.cons_append, splitOnDot, if_neg hc, List.append_eq]
      cases h : splitOnDot t with
      | nil => exact absurd h (splitOnDot_ne_nil t)
      | cons h' t' => rw [ih, h]; rfl

theorem getD_append_middle (A : List Str) (p : Str) (rest : List Str) (d : Str) :
    (A ++ p :: rest).getD A.length d = p := by
  induction A with
  | nil => rfl
  | cons x A ih => simpa using ih

theorem endsWithL_append (a t : Str) : endsWithL (a ++ t) t = true := by
  simp only [endsWithL, decide_eq_true_eq]
  exact List.suffix_append a t

/-- For a file name of shape `base.plat.ext` where neither `plat` nor `ext`
contains a dot, the script's `parts[parts.length - 2]` computation yields
`plat`. -/
theorem filePlatOf_suffixed (base plat ext : Str)
    (hplat : splitOnDot plat = [plat]) (hext : splitOnDot ext = [ext]) :
    filePlatOf (base ++ ('.' :: plat) ++ ('.' :: ext)) = some plat := by
  unfold filePlatOf
  rw [splitOnDot_append (base ++ '.' :: plat) ext,
    splitOnDot_append base plat, hplat, hext]
  have hA : 0 < (splitOnDot base).length :=
    List.length_pos.mpr (splitOnDot_ne_nil base)
  rw [if_pos (by simp; omega)]
  congr 1
  have : splitOnDot base ++ [plat] ++ [ext] = splitOnDot base ++ plat :: [ext] := by
    simp
  rw [this]
  have hlen : (splitOnDot base ++ plat :: [ext]).length - 2 = (splitOnDot base).length := by
    simp
  rw [hlen, getD_append_middle]

/-- A file whose name-platform part is a recognized family other than the
target is dropped by the first guard (lines 61–63). -/
theorem keepsFile_eq_false_of_other (files : List Str) (target file fp : Str)
    (hmjs : (endsWithL file ".mjs".data || endsWithL file ".js".data) = true)
    (hfp : filePlatOf file = some fp)
    (hin : fp ∈ knownPlats) (hne : fp ≠ target) :
    keepsFile files target file = false := by
  unfold keepsFile
  rw [hmjs, hfp]
  simp [hin, hne]

/-- Every file name written by one directory level of resolution passed the
keep/drop decision. -/
theorem keepsFile_of_mem_resolveListing (rw : Str → Str) (target : Str)
    (entries : List (Str × Str)) (n : Str)
    (h : n ∈ (resolveListing rw target entries).map Prod.fst) :
    keepsFile (entries.map Prod.fst) target n = true := by
  simp only [resolveListing, List.map_filterMap, List.mem_filterMap] at h
  obtain ⟨⟨n', c'⟩, _, hsome⟩ := h
  by_cases hk : keepsFile (entries.map Prod.fst) target n' = true
  · simp only [hk, if_pos] at hsome
    simp at hsome
    exact hsome ▸ hk
  · simp [hk] at hsome

/-- C6: a script file carrying a recognized OS-family suffix different from
the target family is dropped by `processDirectory` (lines 61–63) and hence
never appears in the build tree produced for that family, at any directory
level. -/
theorem crossFamily_file_dropped (files : List Str) (base target plat ext : Str)
    (hin : plat ∈ knownPlats) (hne : plat ≠ target)
    (hext : ext = "mjs".data ∨ ext = "js".data) :
    keepsFile files target (base ++ ('.' :: plat) ++ ('.' :: ext)) = false ∧
      ∀ (rw : Str → Str) (entries : List (Str × Str)),
        (base ++ ('.' :: plat) ++ ('.' :: ext)) ∉
          (resolveListing rw target entries).map Prod.fst := by
  have hplat : splitOnDot plat = [plat] := by
    simp only [knownPlats, List.mem_cons, List.not_mem_nil, or_false] at hin
    rcases hin with h | h | h <;> subst h <;> decide
  have hextsplit : splitOnDot ext = [ext] := by
    rcases hext with h | h <;> subst h <;> decide
  have hmjs : (endsWithL (base ++ ('.' :: plat) ++ ('.' :: ext)) ".mjs".data ||
      endsWithL (base ++ ('.' :: plat) ++ ('.' :: ext)) ".js".data) = true := by
    rcases hext with h | h <;> subst h
    · rw [show ((".mjs".data : Str) = '.' :: "mjs".data) from rfl,
        endsWithL_append, Bool.true_or]
    · rw [show ((".js".data : Str) = '.' :: "js".data) from rfl,
        endsWithL_append, Bool.or_true]
  have hfp := filePlatOf_suffixed base plat ext hplat hextsplit
  refine ⟨keepsFile_eq_false_of_other files target _ plat hmjs hfp hin hne, ?_⟩
  intro rw entries hmem
  have hk := keepsFile_of_mem_resolveListing rw target entries _ hmem
  have hdrop := keepsFile_eq_false_of_other (entries.map Prod.fst) target _ plat
    hmjs hfp hin hne
  rw [hk] at hdrop
  exact Bool.noConfusion hdrop

/-- Witness for C6 at a concrete input: `x.win32.mjs` is dropped when
resolving for `darwin`, whatever the directory contains. -/
theorem crossFamily_file_dropped_witness :
    keepsFile ["x.win32.mjs".data, "x.mjs".data] "darwin".data
      "x.win32.mjs".data = false := by
  exact (crossFamily_file_dropped ["x.win32.mjs".data, "x.mjs".data]
    "x".data "darwin".data "win32".data "mjs".data
    (by decide) (by decide) (Or.inl rfl)).1

/-! ## Import rewriting (part_000 lines 77–86)

`content.replace(/(import\s+.+?\s+from\s+['"])(.+?)\.mjs(['"])/g, cb)` is
modelled by a backtracking matcher specialised to this regular expression.
JavaScript `replace` semantics: scan the subject left to right; at each
position take the leftmost match (lazy quantifiers prefer the shortest
extension, greedy ones the longest, with backtracking); the callback's result
is spliced in and scanning resumes after the matched span.  The callback (the
function of lines 77–86) rewrites the import to
`<path>.<targetPlat>.mjs` when `existsSync(path.resolve(currentDir,
platFile))` holds (modelled by the oracle `ex` applied to the relative
`platFile`), and returns the match unchanged otherwise. -/

/-- JavaScript `\s` (the whitespace characters that occur in source text). -/
def isWSChar (c : Char) : Bool :=
  c == ' ' || c == '\t' || c == '\n' || c == '\r' || c == '\x0b' || c == '\x0c'

/-- JavaScript `.` without the `s` flag: any character except a line
terminator. -/
def isDotAny (c : Char) : Bool := !(c == '\n' || c == '\r')

/-- The single-quote character. -/
def sq : Char := Char.ofNat 39

/-- The character class `['"]`. -/
def isQuoteChar (c : Char) : Bool := c == sq || c == '"'

/-- The three capture groups and the remaining subject after a match:
`before` is group 1 (from `import` up to and including the opening quote),
`path` is group 2 (the import path without `.mjs`), `q2` is group 3 (the
closing quote). -/
structure MatchParts where
  before : Str
  path : Str
  q2 : Char
  rest : Str
  deriving DecidableEq

/-- After the lazy path capture: the literal `.mjs` followed by `['"]`. -/
def pathTail (before path : Str) (s : Str) : Option MatchParts :=
  if ".mjs".data.isPrefixOf s then
    match s.drop 4 with
    | q :: rest => if isQuoteChar q then some ⟨before, path, q, rest⟩ else none
    | [] => none
  else none

/-- The lazy `(.+?)` path capture: consume one non-terminator character, try
the tail, only then extend. -/
def pathLoop (before path : Str) : Str → Option MatchParts
  | [] => none
  | c :: rest =>
    if isDotAny c then
      pathTail before (path ++ [c]) rest <|> pathLoop before (path ++ [c]) rest
    else none

/-- The opening `['"]`. -/
def quoteStart (before : Str) : Str → Option MatchParts
  | c :: rest => if isQuoteChar c then pathLoop (before ++ [c]) [] rest else none
  | [] => none

/-- The greedy `\s+` before the opening quote: extend first, give back on
failure. -/
def ws3Loop (before ws : Str) : Str → Option MatchParts
  | [] => quoteStart (before ++ ws) []
  | c :: rest =>
    (if isWSChar c then ws3Loop before (ws ++ [c]) rest else none) <|>
      quoteStart (before ++ ws) (c :: rest)

/-- Entry of the `\s+` before the opening quote (at least one character). -/
def ws3Start (before : Str) : Str → Option MatchParts
  | c :: rest => if isWSChar c then ws3Loop before [c] rest else none
  | [] => none

/-- The literal `from`. -/
def fromStart (before : Str) (s : Str) : Option MatchParts :=
  if "from".data.isPrefixOf s then ws3Start (before ++ "from".data) (s.drop 4)
  else none

/-- The greedy `\s+` before `from`. -/
def ws2Loop (before ws : Str) : Str → Option MatchParts
  | [] => fromStart (before ++ ws) []
  | c :: rest =>
    (if isWSChar c then ws2Loop before (ws ++ [c]) rest else none) <|>
      fromStart (before ++ ws) (c :: rest)

/-- Entry of the `\s+` before `from`. -/
def ws2Start (before : Str) : Str → Option MatchParts
  | c :: rest => if isWSChar c then ws2Loop before [c] rest else none
  | [] => none

/-- The lazy `.+?` between the import clause and `from`: consume one
character, try the rest of the pattern, only then extend. -/
def midLoop (before mid : Str) : Str → Option MatchParts
  | [] => none
  | c :: rest =>
    if isDotAny c then
      ws2Start (before ++ mid ++ [c]) rest <|> midLoop before (mid ++ [c]) rest
    else none

/-- The greedy `\s+` after `import`. -/
def ws1Loop (before ws : Str) : Str → Option MatchParts
  | [] => midLoop (before ++ ws) [] []
  | c :: rest =>
    (if isWSChar c then ws1Loop before (ws ++ [c]) rest else none) <|>
      midLoop (before ++ ws) [] (c :: rest)

/-- Match the whole pattern at the start of `s`. -/
def matchImportAt (s : Str) : Option MatchParts :=
  if "import".data.isPrefixOf s then
    match s.drop 6 with
    | c :: rest => if isWSChar c then ws1Loop "import".data [c] rest else none
    | [] => none
  else none

/-- A segment of the subject: either a character outside every match or one
match. -/
inductive Seg where
  | lit (c : Char)
  | mtc (p : MatchParts)
  deriving DecidableEq

/-- Left-to-right scan with resumption after each match (the `g` flag).
`fuel` bounds the number of steps; every step consumes at least one character
(a match starts with the literal `import`), so `fuel = s.length` never runs
out. -/
def scanSeg : Nat → Str → List Seg
  | _, [] => []
  | 0, s => s.map Seg.lit
  | fuel + 1, s@(c :: rest) =>
    match matchImportAt s with
    | some p => Seg.mtc p :: scanSeg fuel p.rest
    | none => Seg.lit c :: scanSeg fuel rest

/-- The callback of lines 77–86 applied to one match. -/
def applyCb (ex : Str → Bool) (targetPlat : Str) (p : MatchParts) : Str :=
  cond (ex (p.path ++ ('.' :: targetPlat) ++ ".mjs".data))
    (p.before ++ p.path ++ ('.' :: targetPlat) ++ ".mjs".data ++ [p.q2])
    (p.before ++ p.path ++ ".mjs".data ++ [p.q2])

/-- Reassembly of the replacement result. -/
def assembleSegs (ex : Str → Bool) (targetPlat : Str) (segs : List Seg) : Str :=
  (segs.map fun s =>
    match s with
    | .lit c => [c]
    | .mtc p => applyCb ex targetPlat p).flatten

/-- Lines 77–86: the import-rewriting `content.replace(...)`. -/
def rewriteImports (ex : Str → Bool) (targetPlat : Str) (content : Str) : Str :=
  assembleSegs ex targetPlat (scanSeg content.length content)

/-- A script with two import statements (one per quote style), the first of
the spec's own example shape. -/
def c5content : Str :=
  "import {f} from './util.mjs'\nlet x = 1\nimport g from \"./b.mjs\"\n".data

/-- Helper for C5: on a two-import script (one per quote style), each import
is rewritten independently, according to the existence of its own
platform-specific sibling. -/
theorem rewriteImports_two_imports (ex : Str → Bool) :
    rewriteImports ex "darwin".data c5content =
      (cond (ex "./util.darwin.mjs".data)
        "import {f} from './util.darwin.mjs'".data
        "import {f} from './util.mjs'".data) ++
      ("\nlet x = 1\n".data ++
        ((cond (ex "./b.darwin.mjs".data)
          "import g from \"./b.darwin.mjs\"".data
          "import g from \"./b.mjs\"".data) ++ "\n".data)) := rfl

/-- The capture `(.+?)` cannot end strictly inside the import path: as long
as the remaining path characters contain no quote, the required
`\.mjs['"]` tail cannot match there. -/
theorem pathTail_inside_none (before acc m rest2 : Str)
    (hm : m ≠ []) (hchars : ∀ c ∈ m, isQuoteChar c = false) :
    pathTail before acc (m ++ (".mjs".data ++ rest2)) = none := by
  match m, hm with
  | [c1], _ =>
    simp [pathTail, List.isPrefixOf]
  | [c1, c2], _ =>
    simp [pathTail, List.isPrefixOf]
  | [c1, c2, c3], _ =>
    simp [pathTail, List.isPrefixOf]
  | [c1, c2, c3, c4], _ =>
    unfold pathTail
    split
    · simp only [List.cons_append, List.nil_append, List.drop_succ_cons,
        List.drop_zero]
      rw [show isQuoteChar '.' = false from rfl]
      rfl
    · rfl
  | c1 :: c2 :: c3 :: c4 :: c5 :: m', _ =>
    unfold pathTail
    split
    · have h5 : isQuoteChar c5 = false := hchars c5 (by simp)
      simp [h5]
    · rfl

/-- The lazy path capture consumes exactly the import path when the path
contains no line terminator and no quote. -/
theorem pathLoop_spec (before : Str) (q : Char) (tail : Str) :
    ∀ (p acc : Str), p ≠ [] →
      (∀ c ∈ p, isDotAny c = true ∧ isQuoteChar c = false) →
      isQuoteChar q = true →
      pathLoop before acc (p ++ (".mjs".data ++ q :: tail)) =
        some ⟨before, acc ++ p, q, tail⟩ := by
  intro p
  induction p with
  | nil => intro acc h; exact absurd rfl h
  | cons c p' ih =>
    intro acc _ hchars hq
    obtain ⟨hdot, -⟩ := hchars c (by simp)
    cases hp' : p' with
    | nil =>
      simp only [List.cons_append, List.nil_append, pathLoop, hdot, if_true]
      simp [pathTail, List.isPrefixOf, hq]
    | cons c2 p'' =>
      subst hp'
      rw [show ((c :: c2 :: p'') ++ (".mjs".data ++ q :: tail) : Str) =
          c :: ((c2 :: p'') ++ (".mjs".data ++ q :: tail)) from rfl]
      rw [pathLoop, if_pos hdot]
      have hfail : pathTail before (acc ++ [c])
          ((c2 :: p'') ++ (".mjs".data ++ q :: tail)) = none :=
        pathTail_inside_none before (acc ++ [c]) (c2 :: p'') (q :: tail)
          (by simp) (fun d hd => (hchars d (List.mem_cons_of_mem c hd)).2)
      rw [hfail, Option.none_orElse]
      rw [ih (acc ++ [c]) (by simp)
        (fun d hd => hchars d (List.mem_cons_of_mem c hd)) hq]
      simp [List.append_assoc]

/-- The whole pattern matches a well-formed single-import statement and
captures its path. -/
theorem matchImportAt_generic (p : Str) (hp : p ≠ [])
    (hchars : ∀ c ∈ p, isDotAny c = true ∧ isQuoteChar c = false) :
    matchImportAt
        ("import {f} from '".data ++ (p ++ (".mjs".data ++ [sq]))) =
      some ⟨"import {f} from '".data, p, sq, []⟩ := by
  have h1 : matchImportAt
      ("import {f} from '".data ++ (p ++ (".mjs".data ++ [sq]))) =
      ((pathLoop "import {f} from '".data []
          (p ++ (".mjs".data ++ sq :: []))) <|>
        midLoop "import ".data "{f}".data
          (" from '".data ++ (p ++ (".mjs".data ++ [sq])))) := rfl
  rw [h1, pathLoop_spec "import {f} from '".data sq [] p [] hp hchars rfl]
  simp

theorem scanSeg_match_any (fuel : Nat) (s : Str) (parts : MatchParts)
    (hne : s ≠ []) (h : matchImportAt s = some parts) :
    scanSeg (fuel + 1) s = Seg.mtc parts :: scanSeg fuel parts.rest := by
  cases s with
  | nil => exact absurd rfl hne
  | cons c rest => simp [scanSeg, h]

/-- Helper for C5: for EVERY import path `p` (non-empty, no quote, no line
terminator) and every target family and file system, the single-import
script is rewritten to `from '<p>.<plat>.mjs'` exactly when `ex` says that
sibling exists, and left character-for-character unchanged otherwise. -/
theorem rewriteImports_generic (ex : Str → Bool) (plat p : Str) (hp : p ≠ [])
    (hchars : ∀ c ∈ p, isDotAny c = true ∧ isQuoteChar c = false) :
    rewriteImports ex plat
        ("import {f} from '".data ++ (p ++ (".mjs".data ++ [sq]))) =
      cond (ex (p ++ ('.' :: plat) ++ ".mjs".data))
        ("import {f} from '".data ++ (p ++ ('.' :: plat) ++ ".mjs".data) ++
          [sq])
        ("import {f} from '".data ++ (p ++ ".mjs".data) ++ [sq]) := by
  have hm := matchImportAt_generic p hp hchars
  have hlen : ("import {f} from '".data ++
      (p ++ (".mjs".data ++ [sq]))).length = p.length + 21 + 1 := by
    simp
  unfold rewriteImports
  rw [hlen, scanSeg_match_any (p.length + 21) _ _ (by simp) hm]
  show assembleSegs ex plat
      [Seg.mtc ⟨"import {f} from '".data, p, sq, []⟩] = _
  simp [assembleSegs, applyCb, List.append_assoc]

/-- C5: each `from '<path>.mjs'` import statement of a copied script is
rewritten to `from '<path>.<osFamily>.mjs'` exactly when the sibling
`<path>.<osFamily>.mjs` exists (oracle `ex`, applied to the path resolved
against the importing file's source directory), and is left
character-for-character unchanged otherwise: (1) for every import path,
target family and file-system state, on a single-import script; (2) for
every file-system state on a two-import script (one per quote style),
handling each of its imports independently. -/
theorem rewriteImports_rewrites_iff_exists :
    (∀ (ex : Str → Bool) (plat p : Str), p ≠ [] →
      (∀ c ∈ p, isDotAny c = true ∧ isQuoteChar c = false) →
      rewriteImports ex plat
          ("import {f} from '".data ++ (p ++ (".mjs".data ++ [sq]))) =
        cond (ex (p ++ ('.' :: plat) ++ ".mjs".data))
          ("import {f} from '".data ++ (p ++ ('.' :: plat) ++ ".mjs".data) ++
            [sq])
          ("import {f} from '".data ++ (p ++ ".mjs".data) ++ [sq])) ∧
    (∀ ex : Str → Bool,
      rewriteImports ex "darwin".data c5content =
        (cond (ex "./util.darwin.mjs".data)
          "import {f} from './util.darwin.mjs'".data
          "import {f} from './util.mjs'".data) ++
        ("\nlet x = 1\n".data ++
          ((cond (ex "./b.darwin.mjs".data)
            "import g from \"./b.darwin.mjs\"".data
            "import g from \"./b.mjs\"".data) ++ "\n".data))) :=
  ⟨fun ex plat p hp hchars => rewriteImports_generic ex plat p hp hchars,
   fun ex => rewriteImports_two_imports ex⟩

/-- Witness for C5 at the spec's own example: path `./util`, family
`darwin`, a file system in which exactly `./util.darwin.mjs` exists. -/
theorem rewriteImports_rewrites_iff_exists_witness :
    rewriteImports (fun s => decide (s = "./util.darwin.mjs".data))
        "darwin".data
        ("import {f} from '".data ++
          ("./util".data ++ (".mjs".data ++ [sq]))) =
      cond ((fun s => decide (s = "./util.darwin.mjs".data))
          ("./util".data ++ ('.' :: "darwin".data) ++ ".mjs".data))
        ("import {f} from '".data ++
          ("./util".data ++ ('.' :: "darwin".data) ++ ".mjs".data) ++ [sq])
        ("import {f} from '".data ++ ("./util".data ++ ".mjs".data) ++
          [sq]) :=
  rewriteImports_rewrites_iff_exists.1
    (fun s => decide (s = "./util.darwin.mjs".data)) "darwin".data
    "./util".data (by decide) (by decide)

/-! ## The orchestrator run (STAGE 0 → target loop → STAGE 3)

The file-system state relevant to the claims is the set of paths the run
reads or writes among the vendored sources and their backups (constants of
lines 102–108), plus the user manifest (line 19).  `ok p = false` injects an
I/O failure (a throwing `readFileSync`/`writeFileSync`/`cpSync`) at path `p`;
a failing operation leaves the file unmodified.  `existsSync` never throws.
The build directory, `bin`/`dist` outputs and the repl stub live outside
these paths and are tracked as loop artifacts instead.  `renameSync` and
`unlinkSync` in STAGE 3 are modelled as non-failing. -/

/-- The files of the vendor tree the orchestrator touches:
`LIBC_PATH`, `LIBC_BAK`, `QJS_C_PATH`, `QJS_C_BAK`, `QJSC_C_PATH`,
`QJSC_C_BAK`, `EXEC_SRC_PATH`, `USER_PKG_PATH`. -/
inductive VPath where
  | libc | libcBak | qjsC | qjsCBak | qjscC | qjscCBak | execSrc | userPkg
  deriving DecidableEq

/-- File-system state: content of each tracked path, `none` = absent. -/
abbrev FS := VPath → Option Str

/-- Point update of the file system. -/
def FS.update (fs : FS) (p : VPath) (v : Option Str) : FS :=
  fun q => if q = p then v else fs q

/-- `existsSync`. -/
def existsF (fs : FS) (p : VPath) : Bool := (fs p).isSome

/-- `readFileSync`: throws on an unhealthy path (and on a missing one, but
every read in the script is guarded by `existsSync`). -/
def readF (ok : VPath → Bool) (fs : FS) (p : VPath) : Except Unit Str :=
  if ok p then
    match fs p with
    | some c => .ok c
    | none => .error ()
  else .error ()

/-- `writeFileSync`. -/
def writeF (ok : VPath → Bool) (fs : FS) (p : VPath) (c : Str) :
    Except Unit FS :=
  if ok p then .ok (fs.update p (some c)) else .error ()

/-- The log lines the claims talk about. -/
inductive LogMsg where
  | errNoPkg
  | stagePatch
  | patchedLibc
  | patchedQjs
  | patchedQjsc
  | compilingFor (id : Str)
  | buildToolsOk (id : Str)
  | binaryBuilt (id : Str)
  | compileFailed (id : Str)
  | stageCleanup
  | restored (p : VPath)
  | banner
  deriving DecidableEq

/-- Lines 127–151 for `quickjs-libc.c`: guarded by `existsSync(LIBC_PATH)`;
back up once (only when no backup exists), read, transform with `patchLibc`
(reading `src/exec.c` when it exists), write back, log.  An exception
carries the file system and log at the point of the throw. -/
def patchLibcStep (ok : VPath → Bool) (mods : List Str) (fs : FS)
    (logs : List LogMsg) : Except (FS × List LogMsg) (FS × List LogMsg) :=
  if existsF fs .libc then
    match (if existsF fs .libcBak then Except.ok fs
           else match readF ok fs .libc with
                | .error _ => .error ()
                | .ok c => writeF ok fs .libcBak c) with
    | .error _ => .error (fs, logs)
    | .ok fs1 =>
      match readF ok fs1 .libc with
      | .error _ => .error (fs1, logs)
      | .ok c =>
        match (if existsF fs1 .execSrc then
                 match readF ok fs1 .execSrc with
                 | .error _ => Except.error ()
                 | .ok impl => Except.ok (some impl)
               else Except.ok none) with
        | .error _ => .error (fs1, logs)
        | .ok execOpt =>
          match writeF ok fs1 .libc (patchLibc mods execOpt c) with
          | .error _ => .error (fs1, logs)
          | .ok fs2 => .ok (fs2, logs ++ [.patchedLibc])
  else .ok (fs, logs)

/-- Lines 153–172 for one of `qjs.c`/`qjsc.c` (transform `tr`): guarded by
`existsSync(p)`; back up once, read, transform, write, log. -/
def patchFileStep (ok : VPath → Bool) (src bak : VPath) (tr : Str → Str)
    (lg : LogMsg) (fs : FS) (logs : List LogMsg) :
    Except (FS × List LogMsg) (FS × List LogMsg) :=
  if existsF fs src then
    match (if existsF fs bak then Except.ok fs
           else match readF ok fs src with
                | .error _ => .error ()
                | .ok c => writeF ok fs bak c) with
    | .error _ => .error (fs, logs)
    | .ok fs1 =>
      match readF ok fs1 src with
      | .error _ => .error (fs1, logs)
      | .ok c =>
        match writeF ok fs1 src (tr c) with
        | .error _ => .error (fs1, logs)
        | .ok fs2 => .ok (fs2, logs ++ [lg])
  else .ok (fs, logs)

/-- STAGE 0 (lines 125–172): patch `quickjs-libc.c`, then `qjs.c`, then
`qjsc.c`.  There is no `try`/`catch`: the first throw aborts the stage. -/
def stage0 (ok : VPath → Bool) (mods : List Str) (fs : FS) :
    Except (FS × List LogMsg) (FS × List LogMsg) :=
  match patchLibcStep ok mods fs [] with
  | .error e => .error e
  | .ok (fs1, l1) =>
    match patchFileStep ok .qjsC .qjsCBak (patchQjs mods) .patchedQjs fs1 l1 with
    | .error e => .error e
    | .ok (fs2, l2) =>
      patchFileStep ok .qjscC .qjscCBak (patchQjsc mods) .patchedQjsc fs2 l2

/-- A row of the target registry (lines 179–187). -/
structure Target where
  id : Str
  qjs : Str
  qjsc : Str
  app : Str
  libs : Str
  cflags : Str
  plat : Str
  deriving DecidableEq

/-- The target registry (lines 179–187), parameterised by `APP_NAME`. -/
def targetRegistry (appName : Str) : List Target :=
  [⟨"x86_64-windows-gnu".data, "qjs_win64.exe".data, "qjsc_win64.exe".data,
      appName ++ "_win64.exe".data, "-lm".data, "-D_GNU_SOURCE".data, "win32".data⟩,
   ⟨"x86-windows-gnu".data, "qjs_win32.exe".data, "qjsc_win32.exe".data,
      appName ++ "_win32.exe".data, "-lm".data, "-D_GNU_SOURCE".data, "win32".data⟩,
   ⟨"x86_64-linux-gnu".data, "qjs_linux64".data, "qjsc_linux64".data,
      appName ++ "_linux64".data, "-lm -lpthread -ldl".data,
      "-D_GNU_SOURCE -DCONFIG_PTHREAD".data, "linux".data⟩,
   ⟨"x86-linux-gnu".data, "qjs_linux32".data, "qjsc_linux32".data,
      appName ++ "_linux32".data, "-lm -lpthread -ldl".data,
      "-D_GNU_SOURCE -DCONFIG_PTHREAD".data, "linux".data⟩,
   ⟨"aarch64-linux-gnu".data, "qjs_linux_arm64".data, "qjsc_linux_arm64".data,
      appName ++ "_linux_arm64".data, "-lm -lpthread -ldl".data,
      "-D_GNU_SOURCE -DCONFIG_PTHREAD".data, "linux".data⟩,
   ⟨"aarch64-macos".data, "qjs_mac_arm".data, "qjsc_mac_arm".data,
      appName ++ "_mac_arm".data, "-lm -lpthread -ldl".data,
      "-D_GNU_SOURCE -DCONFIG_PTHREAD".data, "darwin".data⟩,
   ⟨"x86_64-macos".data, "qjs_mac_intel".data, "qjsc_mac_intel".data,
      appName ++ "_mac_intel".data, "-lm -lpthread -ldl".data,
      "-D_GNU_SOURCE -DCONFIG_PTHREAD".data, "darwin".data⟩]

/-- The four external tool invocations inside one target's `try` block
(lines 224, 225, 231, 233). -/
inductive TStep where
  | buildQjs | buildQjsc | precompile | linkApp
  deriving DecidableEq

/-- The `try` block of one target iteration (lines 223–238), given which of
its tool invocations succeed (`execOk`): artifacts produced before the first
failing call, tagged with the owning target's id, and the log lines.  On
failure the `catch` logs `Compilation failed` and swallows the error. -/
def targetTry (execOk : Str → TStep → Bool) (t : Target) :
    List (Str × Str) × List LogMsg :=
  if !execOk t.id .buildQjs then ([], [.compileFailed t.id])
  else if !execOk t.id .buildQjsc then ([(t.id, t.qjs)], [.compileFailed t.id])
  else if !execOk t.id .precompile then
    ([(t.id, t.qjs), (t.id, t.qjsc)], [.buildToolsOk t.id, .compileFailed t.id])
  else if !execOk t.id .linkApp then
    ([(t.id, t.qjs), (t.id, t.qjsc), (t.id, t.id ++ "_app.c".data)],
      [.buildToolsOk t.id, .compileFailed t.id])
  else
    ([(t.id, t.qjs), (t.id, t.qjsc), (t.id, t.id ++ "_app.c".data), (t.id, t.app)],
      [.buildToolsOk t.id, .binaryBuilt t.id])

/-- Accumulated outputs of the target loop. -/
structure LoopState where
  arts : List (Str × Str)
  logs : List LogMsg
  deriving DecidableEq

/-- One iteration of `targets.forEach` (lines 198–239): the build tree is
(re)created by `processDirectory` before the `try` block, so it is produced
even for a failing target; then the `try` block runs. -/
def targetIter (execOk : Str → TStep → Bool) (st : LoopState) (t : Target) :
    LoopState :=
  ⟨st.arts ++ (t.id, "build/".data ++ t.id) :: (targetTry execOk t).1,
   st.logs ++ .compilingFor t.id :: (targetTry execOk t).2⟩

/-- The whole target loop. -/
def runTargetLoop (execOk : Str → TStep → Bool) (ts : List Target) : LoopState :=
  ts.foldl (targetIter execOk) ⟨[], []⟩

/-- One entry of the STAGE 3 restore loop (lines 255–260): if the backup
exists, `renameSync` it over the source (the backup disappears) and log. -/
def restoreOne (st : FS × List LogMsg) (pair : VPath × VPath) :
    FS × List LogMsg :=
  if existsF st.1 pair.1 then
    ((st.1.update pair.2 (st.1 pair.1)).update pair.1 none,
      st.2 ++ [.restored pair.2])
  else st

/-- STAGE 3 vendor-source restoration (lines 255–260). -/
def stage3 (fs : FS) : FS × List LogMsg :=
  [(VPath.libcBak, VPath.libc), (VPath.qjsCBak, VPath.qjsC),
   (VPath.qjscCBak, VPath.qjscC)].foldl restoreOne (fs, [])

/-- Configuration and failure injection of one run. -/
structure RunInput where
  ok : VPath → Bool
  mods : List Str
  execOk : Str → TStep → Bool

/-- Observable outcome of one run. -/
structure RunResult where
  fs : FS
  exit : Nat
  logs : List LogMsg
  arts : List (Str × Str)

/-- The whole orchestrator run, top to bottom of part_000: missing
`package.json` exits 1 (lines 20–23); a STAGE 0 throw is uncaught, so the
process dies with a non-zero status before the target loop and before
STAGE 3; otherwise the target loop runs (per-target failures caught), the
temporary `*_app.c` files are unlinked (lines 247–253), the vendor sources
are restored, and the completion banner is printed (line 263) with implicit
exit status 0. -/
def runOrch (inp : RunInput) (targets : List Target) (fs : FS) : RunResult :=
  if existsF fs .userPkg then
    match stage0 inp.ok inp.mods fs with
    | .error (fse, logse) => ⟨fse, 1, .stagePatch :: logse, []⟩
    | .ok (fs0, logs0) =>
      let ls := runTargetLoop inp.execOk targets
      let cleaned := ls.arts.filter fun a => !endsWithL a.2 "_app.c".data
      let rst := stage3 fs0
      ⟨rst.1, 0,
        .stagePatch :: logs0 ++ ls.logs ++ .stageCleanup :: rst.2 ++ [.banner],
        cleaned⟩
  else ⟨fs, 1, [.errNoPkg], []⟩

/-! ### Characterisation of the stages when every I/O operation succeeds -/

theorem FS.update_same (fs : FS) (p : VPath) (v : Option Str) :
    fs.update p v p = v := by
  simp [FS.update]

theorem FS.update_ne (fs : FS) (p q : VPath) (v : Option Str) (h : q ≠ p) :
    fs.update p v q = fs q := by
  simp [FS.update, h]

/-- The pure effect of one guarded backup-and-patch step (used for `qjs.c`
and `qjsc.c`). -/
def patchedFS (fs : FS) (src bak : VPath) (tr : Str → Str) : FS :=
  match fs src with
  | none => fs
  | some c =>
    (if (fs bak).isSome then fs else fs.update bak (some c)).update src
      (some (tr c))

/-- The pure effect of the `quickjs-libc.c` step; `fs .execSrc` is exactly
the optional shim content. -/
def patchedLibcFS (mods : List Str) (fs : FS) : FS :=
  match fs .libc with
  | none => fs
  | some c =>
    (if (fs .libcBak).isSome then fs else fs.update .libcBak (some c)).update
      .libc (some (patchLibc mods (fs .execSrc) c))

theorem patchFileStep_allOk (ok : VPath → Bool) (hok : ∀ p, ok p = true)
    (src bak : VPath) (hne : src ≠ bak) (tr : Str → Str) (lg : LogMsg)
    (fs : FS) (logs : List LogMsg) :
    patchFileStep ok src bak tr lg fs logs =
      .ok (patchedFS fs src bak tr,
        logs ++ if (fs src).isSome then [lg] else []) := by
  cases hsrc : fs src with
  | none => simp [patchFileStep, patchedFS, existsF, hsrc]
  | some c =>
    by_cases hbak : (fs bak).isSome
    · simp [patchFileStep, patchedFS, existsF, readF, writeF, hsrc, hbak,
        hok src, hok bak]
    · have hupd : (fs.update bak (some c)) src = fs src :=
        FS.update_ne fs bak src (some c) hne
      simp [patchFileStep, patchedFS, existsF, readF, writeF, hsrc, hbak,
        hok src, hok bak, hupd]

theorem patchLibcStep_allOk (ok : VPath → Bool) (hok : ∀ p, ok p = true)
    (mods : List Str) (fs : FS) (logs : List LogMsg) :
    patchLibcStep ok mods fs logs =
      .ok (patchedLibcFS mods fs,
        logs ++ if (fs .libc).isSome then [.patchedLibc] else []) := by
  cases hsrc : fs .libc with
  | none => simp [patchLibcStep, patchedLibcFS, existsF, hsrc]
  | some c =>
    by_cases hbak : (fs .libcBak).isSome
    · cases hex : fs .execSrc with
      | none =>
        simp [patchLibcStep, patchedLibcFS, existsF, readF, writeF, hsrc,
          hbak, hex, hok VPath.libc, hok VPath.libcBak, hok VPath.execSrc]
      | some impl =>
        simp [patchLibcStep, patchedLibcFS, existsF, readF, writeF, hsrc,
          hbak, hex, hok VPath.libc, hok VPath.libcBak, hok VPath.execSrc]
    · have hupd1 : (fs.update .libcBak (some c)) .libc = fs .libc :=
        FS.update_ne fs _ _ _ (by decide)
      have hupd2 : (fs.update .libcBak (some c)) .execSrc = fs .execSrc :=
        FS.update_ne fs _ _ _ (by decide)
      cases hex : fs .execSrc with
      | none =>
        simp [patchLibcStep, patchedLibcFS, existsF, readF, writeF, hsrc,
          hbak, hex, hupd1, hupd2, hok VPath.libc, hok VPath.libcBak,
          hok VPath.execSrc]
      | some impl =>
        simp [patchLibcStep, patchedLibcFS, existsF, readF, writeF, hsrc,
          hbak, hex, hupd1, hupd2, hok VPath.libc, hok VPath.libcBak,
          hok VPath.execSrc]

/-- The pure effect of the whole of STAGE 0 when every I/O succeeds. -/
def stage0FS (mods : List Str) (fs : FS) : FS :=
  patchedFS (patchedFS (patchedLibcFS mods fs) .qjsC .qjsCBak (patchQjs mods))
    .qjscC .qjscCBak (patchQjsc mods)

theorem patchedFS_frame (fs : FS) (src bak : VPath) (tr : Str → Str)
    (q : VPath) (h1 : q ≠ src) (h2 : q ≠ bak) :
    patchedFS fs src bak tr q = fs q := by
  unfold patchedFS
  cases hsrc : fs src with
  | none => rfl
  | some c =>
    dsimp only
    rw [FS.update_ne _ _ _ _ h1]
    split
    · rfl
    · exact FS.update_ne _ _ _ _ h2

theorem patchedLibcFS_frame (mods : List Str) (fs : FS) (q : VPath)
    (h1 : q ≠ .libc) (h2 : q ≠ .libcBak) :
    patchedLibcFS mods fs q = fs q := by
  unfold patchedLibcFS
  cases hsrc : fs .libc with
  | none => rfl
  | some c =>
    dsimp only
    rw [FS.update_ne _ _ _ _ h1]
    split
    · rfl
    · exact FS.update_ne _ _ _ _ h2

theorem stage0_allOk (ok : VPath → Bool) (hok : ∀ p, ok p = true)
    (mods : List Str) (fs : FS) :
    stage0 ok mods fs =
      .ok (stage0FS mods fs,
        (if (fs .libc).isSome then [.patchedLibc] else []) ++
        (if (fs .qjsC).isSome then [.patchedQjs] else []) ++
        (if (fs .qjscC).isSome then [.patchedQjsc] else [])) := by
  have h1 : patchedLibcFS mods fs .qjsC = fs .qjsC :=
    patchedLibcFS_frame mods fs _ (by decide) (by decide)
  have h2 : patchedFS (patchedLibcFS mods fs) .qjsC .qjsCBak (patchQjs mods)
      .qjscC = fs .qjscC := by
    rw [patchedFS_frame _ _ _ _ _ (by decide) (by decide)]
    exact patchedLibcFS_frame mods fs _ (by decide) (by decide)
  rw [stage0, patchLibcStep_allOk ok hok]
  dsimp only
  rw [patchFileStep_allOk ok hok _ _ (by decide)]
  dsimp only
  rw [patchFileStep_allOk ok hok _ _ (by decide)]
  rw [h1, h2, stage0FS]
  simp

theorem patchedFS_at_src (fs : FS) (src bak : VPath) (tr : Str → Str) :
    patchedFS fs src bak tr src =
      match fs src with
      | none => none
      | some c => some (tr c) := by
  unfold patchedFS
  cases hsrc : fs src with
  | none => exact hsrc
  | some c => simp [FS.update_same]

theorem patchedFS_at_bak (fs : FS) (src bak : VPath) (tr : Str → Str)
    (hne : src ≠ bak) :
    patchedFS fs src bak tr bak =
      match fs src with
      | none => fs bak
      | some c => if (fs bak).isSome then fs bak else some c := by
  unfold patchedFS
  cases hsrc : fs src with
  | none => rfl
  | some c =>
    dsimp only
    rw [FS.update_ne _ _ _ _ (Ne.symm hne)]
    split
    · rfl
    · exact FS.update_same _ _ _

theorem patchedLibcFS_at_libc (mods : List Str) (fs : FS) :
    patchedLibcFS mods fs .libc =
      match fs .libc with
      | none => none
      | some c => some (patchLibc mods (fs .execSrc) c) := by
  unfold patchedLibcFS
  cases hsrc : fs .libc with
  | none => exact hsrc
  | some c => simp [FS.update_same]

theorem patchedLibcFS_at_libcBak (mods : List Str) (fs : FS) :
    patchedLibcFS mods fs .libcBak =
      match fs .libc with
      | none => fs .libcBak
      | some c => if (fs .libcBak).isSome then fs .libcBak else some c := by
  unfold patchedLibcFS
  cases hsrc : fs .libc with
  | none => rfl
  | some c =>
    dsimp only
    rw [FS.update_ne _ _ _ _ (by decide)]
    split
    · rfl
    · exact FS.update_same _ _ _

theorem stage0FS_at_libc (mods : List Str) (fs : FS) :
    stage0FS mods fs .libc =
      match fs .libc with
      | none => none
      | some c => some (patchLibc mods (fs .execSrc) c) := by
  unfold stage0FS
  rw [patchedFS_frame _ _ _ _ _ (by decide) (by decide),
    patchedFS_frame _ _ _ _ _ (by decide) (by decide)]
  exact patchedLibcFS_at_libc mods fs

theorem stage0FS_at_libcBak (mods : List Str) (fs : FS) :
    stage0FS mods fs .libcBak =
      match fs .libc with
      | none => fs .libcBak
      | some c => if (fs .libcBak).isSome then fs .libcBak else some c := by
  unfold stage0FS
  rw [patchedFS_frame _ _ _ _ _ (by decide) (by decide),
    patchedFS_frame _ _ _ _ _ (by decide) (by decide)]
  exact patchedLibcFS_at_libcBak mods fs

theorem stage0FS_at_qjsC (mods : List Str) (fs : FS) :
    stage0FS mods fs .qjsC =
      match fs .qjsC with
      | none => none
      | some c => some (patchQjs mods c) := by
  unfold stage0FS
  rw [patchedFS_frame _ _ _ _ _ (by decide) (by decide),
    patchedFS_at_src _ _ _ _,
    patchedLibcFS_frame _ _ _ (by decide) (by decide)]

theorem stage0FS_at_qjsCBak (mods : List Str) (fs : FS) :
    stage0FS mods fs .qjsCBak =
      match fs .qjsC with
      | none => fs .qjsCBak
      | some c => if (fs .qjsCBak).isSome then fs .qjsCBak else some c := by
  unfold stage0FS
  rw [patchedFS_frame _ _ _ _ _ (by decide) (by decide),
    patchedFS_at_bak _ _ _ _ (by decide),
    patchedLibcFS_frame _ _ _ (by decide) (by decide),
    patchedLibcFS_frame _ _ _ (by decide) (by decide)]

theorem stage0FS_at_qjscC (mods : List Str) (fs : FS) :
    stage0FS mods fs .qjscC =
      match fs .qjscC with
      | none => none
      | some c => some (patchQjsc mods c) := by
  unfold stage0FS
  rw [patchedFS_at_src _ _ _ _,
    patchedFS_frame _ _ _ _ _ (by decide) (by decide),
    patchedLibcFS_frame _ _ _ (by decide) (by decide)]

theorem stage0FS_at_qjscCBak (mods : List Str) (fs : FS) :
    stage0FS mods fs .qjscCBak =
      match fs .qjscC with
      | none => fs .qjscCBak
      | some c => if (fs .qjscCBak).isSome then fs .qjscCBak else some c := by
  unfold stage0FS
  rw [patchedFS_at_bak _ _ _ _ (by decide),
    patchedFS_frame _ _ _ _ _ (by decide) (by decide),
    patchedFS_frame _ _ _ _ _ (by decide) (by decide),
    patchedLibcFS_frame _ _ _ (by decide) (by decide),
    patchedLibcFS_frame _ _ _ (by decide) (by decide)]

theorem stage3_char (g : FS) :
    (stage3 g).1 .libc =
        (match g .libcBak with | some v => some v | none => g .libc) ∧
    (stage3 g).1 .qjsC =
        (match g .qjsCBak with | some v => some v | none => g .qjsC) ∧
    (stage3 g).1 .qjscC =
        (match g .qjscCBak with | some v => some v | none => g .qjscC) ∧
    (stage3 g).1 .libcBak = none ∧
    (stage3 g).1 .qjsCBak = none ∧
    (stage3 g).1 .qjscCBak = none ∧
    (stage3 g).2 =
      (if (g .libcBak).isSome then [LogMsg.restored .libc] else []) ++
      (if (g .qjsCBak).isSome then [LogMsg.restored .qjsC] else []) ++
      (if (g .qjscCBak).isSome then [LogMsg.restored .qjscC] else []) := by
  cases hb1 : g .libcBak <;> cases hb2 : g .qjsCBak <;> cases hb3 : g .qjscCBak <;>
    simp [stage3, restoreOne, existsF, FS.update, hb1, hb2, hb3]

/-- The final file system of a run whose fatal stages succeed is the restored
STAGE 0 result. -/
theorem runOrch_fs_allOk (inp : RunInput) (targets : List Target) (fs : FS)
    (hok : ∀ p, inp.ok p = true) (hpkg : existsF fs .userPkg = true) :
    (runOrch inp targets fs).fs = (stage3 (stage0FS inp.mods fs)).1 ∧
    (runOrch inp targets fs).exit = 0 ∧
    (runOrch inp targets fs).logs =
      .stagePatch ::
        ((if (fs .libc).isSome then [.patchedLibc] else []) ++
         (if (fs .qjsC).isSome then [.patchedQjs] else []) ++
         (if (fs .qjscC).isSome then [.patchedQjsc] else [])) ++
        (runTargetLoop inp.execOk targets).logs ++
        .stageCleanup :: (stage3 (stage0FS inp.mods fs)).2 ++ [.banner] := by
  unfold runOrch
  rw [stage0_allOk inp.ok hok]
  simp [hpkg]

/-- C2: in a run with no stale backups whose I/O succeeds, after STAGE 3 each
of the three patched vendor files is byte-identical to its pre-run content
(the target loop, failing or not, never touches them), and no backup file
remains. -/
theorem vendor_files_restored_after_run (inp : RunInput) (targets : List Target)
    (fs : FS) (hok : ∀ p, inp.ok p = true) (hpkg : existsF fs .userPkg = true)
    (h1 : fs .libcBak = none) (h2 : fs .qjsCBak = none)
    (h3 : fs .qjscCBak = none) :
    (runOrch inp targets fs).fs .libc = fs .libc ∧
    (runOrch inp targets fs).fs .qjsC = fs .qjsC ∧
    (runOrch inp targets fs).fs .qjscC = fs .qjscC ∧
    (runOrch inp targets fs).fs .libcBak = none ∧
    (runOrch inp targets fs).fs .qjsCBak = none ∧
    (runOrch inp targets fs).fs .qjscCBak = none := by
  have hrun := (runOrch_fs_allOk inp targets fs hok hpkg).1
  obtain ⟨hl, hq, hqc, hbl, hbq, hbqc, -⟩ := stage3_char (stage0FS inp.mods fs)
  rw [hrun, hl, hq, hqc]
  refine ⟨?_, ?_, ?_, hrun ▸ hbl, hrun ▸ hbq, hrun ▸ hbqc⟩
  · cases hsrc : fs .libc with
    | none => simp [stage0FS_at_libcBak, stage0FS_at_libc, hsrc, h1]
    | some c => simp [stage0FS_at_libcBak, hsrc, h1]
  · cases hsrc : fs .qjsC with
    | none => simp [stage0FS_at_qjsCBak, stage0FS_at_qjsC, hsrc, h2]
    | some c => simp [stage0FS_at_qjsCBak, hsrc, h2]
  · cases hsrc : fs .qjscC with
    | none => simp [stage0FS_at_qjscCBak, stage0FS_at_qjscC, hsrc, h3]
    | some c => simp [stage0FS_at_qjscCBak, hsrc, h3]

/-- A run input whose I/O and tool invocations all succeed, with no custom
modules. -/
def inpAllOk : RunInput := ⟨fun _ => true, [], fun _ _ => true⟩

/-- A pristine vendor tree: the three sources, the shim and the manifest
present, no backups. -/
def fsSample : FS := fun p =>
  match p with
  | .libc => some pristineLibcSample
  | .qjsC => some "QJS SOURCE".data
  | .qjscC => some "QJSC SOURCE".data
  | .execSrc => some execImplSample
  | .userPkg => some "PKG".data
  | _ => none

/-- Witness for C2 at a concrete pristine run. -/
theorem vendor_files_restored_after_run_witness :
    (runOrch inpAllOk (targetRegistry "app".data) fsSample).fs .libc =
        fsSample .libc ∧
    (runOrch inpAllOk (targetRegistry "app".data) fsSample).fs .qjsC =
        fsSample .qjsC ∧
    (runOrch inpAllOk (targetRegistry "app".data) fsSample).fs .qjscC =
        fsSample .qjscC ∧
    (runOrch inpAllOk (targetRegistry "app".data) fsSample).fs .libcBak = none ∧
    (runOrch inpAllOk (targetRegistry "app".data) fsSample).fs .qjsCBak = none ∧
    (runOrch inpAllOk (targetRegistry "app".data) fsSample).fs .qjscCBak = none :=
  vendor_files_restored_after_run inpAllOk (targetRegistry "app".data) fsSample
    (fun _ => rfl) (by decide) rfl rfl rfl

/-! ### C3: restoration is NOT attempted on a fatal patch-stage failure -/

/-- A vendor tree where `quickjs-libc.c` and `qjs.c` exist (no shim, no
backups, manifest present). -/
def fsC3 : FS := fun p =>
  match p with
  | .libc => some "LIBC".data
  | .qjsC => some "QJS".data
  | .userPkg => some "PKG".data
  | _ => none

/-- I/O fails at `qjs.c` (e.g. an unreadable file), succeeds elsewhere. -/
def inpC3 : RunInput := ⟨fun p => !decide (p = VPath.qjsC), [], fun _ _ => true⟩

/-- C3 counterexample: when the patch stage throws while backing up `qjs.c`
— after `quickjs-libc.c` has already been patched on disk — the uncaught
exception terminates the run: STAGE 3 never executes (no cleanup log, no
restore log), and `quickjs-libc.c` is left patched, NOT byte-identical to its
pristine state.  This refutes the claim that restoration is attempted as a
final step even on fatal patch-stage failure. -/
theorem restore_skipped_on_patch_failure :
    (runOrch inpC3 [] fsC3).exit = 1 ∧
    fsC3 .libc = some "LIBC".data ∧
    (runOrch inpC3 [] fsC3).fs .libc = some (winGuardBlock ++ "LIBC".data) ∧
    (runOrch inpC3 [] fsC3).fs .libc ≠ fsC3 .libc ∧
    LogMsg.stageCleanup ∉ (runOrch inpC3 [] fsC3).logs ∧
    LogMsg.restored .libc ∉ (runOrch inpC3 [] fsC3).logs := by
  refine ⟨by decide, by decide, by decide, by decide, by decide, by decide⟩

/-- C3 amended: restoration runs exactly when the script reaches STAGE 3,
i.e. whenever the patch stage completes without throwing; per-target
failures (any `execOk`, even all-failing) never prevent it, and then no
backup file remains.  On a patch-stage throw the process dies before STAGE 3
(see `restore_skipped_on_patch_failure`). -/
theorem restore_runs_when_patching_succeeds (inp : RunInput)
    (targets : List Target) (fs : FS) (hok : ∀ p, inp.ok p = true)
    (hpkg : existsF fs .userPkg = true) :
    (runOrch inp targets fs).exit = 0 ∧
    LogMsg.stageCleanup ∈ (runOrch inp targets fs).logs ∧
    LogMsg.banner ∈ (runOrch inp targets fs).logs ∧
    (runOrch inp targets fs).fs .libcBak = none ∧
    (runOrch inp targets fs).fs .qjsCBak = none ∧
    (runOrch inp targets fs).fs .qjscCBak = none := by
  obtain ⟨hfs, hexit, hlogs⟩ := runOrch_fs_allOk inp targets fs hok hpkg
  obtain ⟨-, -, -, hbl, hbq, hbqc, -⟩ := stage3_char (stage0FS inp.mods fs)
  refine ⟨hexit, ?_, ?_, hfs ▸ hbl, hfs ▸ hbq, hfs ▸ hbqc⟩
  · rw [hlogs]; simp
  · rw [hlogs]; simp

/-- A run input where every tool invocation of every target fails. -/
def inpAllFail : RunInput := ⟨fun _ => true, [], fun _ _ => false⟩

/-- Witness for the amended C3: even when every target's compilation fails,
the cleanup stage runs and restores the vendor sources. -/
theorem restore_runs_when_patching_succeeds_witness :
    (runOrch inpAllFail (targetRegistry "app".data) fsSample).exit = 0 ∧
    LogMsg.stageCleanup ∈
      (runOrch inpAllFail (targetRegistry "app".data) fsSample).logs ∧
    LogMsg.banner ∈
      (runOrch inpAllFail (targetRegistry "app".data) fsSample).logs ∧
    (runOrch inpAllFail (targetRegistry "app".data) fsSample).fs .libcBak =
      none ∧
    (runOrch inpAllFail (targetRegistry "app".data) fsSample).fs .qjsCBak =
      none ∧
    (runOrch inpAllFail (targetRegistry "app".data) fsSample).fs .qjscCBak =
      none :=
  restore_runs_when_patching_succeeds inpAllFail (targetRegistry "app".data)
    fsSample (fun _ => rfl) (by decide)

/-! ### C8: process exit status -/

/-- Whether STAGE 0 throws for this input (an uncaught exception of the
patching stage). -/
def stage0Threw (inp : RunInput) (fs : FS) : Bool :=
  match stage0 inp.ok inp.mods fs with
  | .error _ => true
  | .ok _ => false

/-- C8: the exit status is non-zero when a fatal setup stage fails — a
missing manifest (lines 20–23) or a patch-stage throw — and is zero whenever
the fatal stages succeed, regardless of the per-target outcomes `inp.execOk`
(all of which may fail); in that case the completion banner is printed. -/
theorem exit_status_policy :
    (∀ (inp : RunInput) (ts : List Target) (fs : FS),
      fs .userPkg = none → (runOrch inp ts fs).exit = 1) ∧
    (∀ (inp : RunInput) (ts : List Target) (fs : FS),
      stage0Threw inp fs = true → (runOrch inp ts fs).exit = 1) ∧
    (∀ (inp : RunInput) (ts : List Target) (fs : FS),
      existsF fs .userPkg = true → stage0Threw inp fs = false →
        (runOrch inp ts fs).exit = 0 ∧
          LogMsg.banner ∈ (runOrch inp ts fs).logs) := by
  refine ⟨?_, ?_, ?_⟩
  · intro inp ts fs h
    simp [runOrch, existsF, h]
  · intro inp ts fs h
    unfold stage0Threw at h
    unfold runOrch
    by_cases hpkg : existsF fs .userPkg = true
    · simp only [hpkg, if_true]
      cases hs : stage0 inp.ok inp.mods fs with
      | error e => rfl
      | ok r => rw [hs] at h; exact Bool.noConfusion h
    · simp [hpkg]
  · intro inp ts fs hpkg h
    unfold stage0Threw at h
    unfold runOrch
    simp only [hpkg, if_true]
    cases hs : stage0 inp.ok inp.mods fs with
    | error e => rw [hs] at h; exact Bool.noConfusion h
    | ok r => simp

/-- An empty file system: no manifest at all. -/
def fsEmpty : FS := fun _ => none

/-- Witness for C8: the three exit-status cases at concrete runs — missing
manifest, patch-stage I/O failure, and an all-fatal-stages-succeed run in
which every target's compilation fails. -/
theorem exit_status_policy_witness :
    (runOrch inpAllOk [] fsEmpty).exit = 1 ∧
    (runOrch inpC3 [] fsC3).exit = 1 ∧
    ((runOrch inpAllFail (targetRegistry "app".data) fsSample).exit = 0 ∧
      LogMsg.banner ∈
        (runOrch inpAllFail (targetRegistry "app".data) fsSample).logs) :=
  ⟨exit_status_policy.1 inpAllOk [] fsEmpty rfl,
   exit_status_policy.2.1 inpC3 [] fsC3 (by decide),
   exit_status_policy.2.2 inpAllFail (targetRegistry "app".data) fsSample
     (by decide) (by decide)⟩

/-! ### C9: a missing vendor file is silently skipped -/

/-- The log lines the target loop can emit. -/
def isTargetLog : LogMsg → Bool
  | .compilingFor _ => true
  | .buildToolsOk _ => true
  | .binaryBuilt _ => true
  | .compileFailed _ => true
  | _ => false

theorem targetTry_logs_target (e : Str → TStep → Bool) (t : Target) :
    ∀ l ∈ (targetTry e t).2, isTargetLog l = true := by
  intro l hl
  unfold targetTry at hl
  split_ifs at hl <;>
    simp only [List.mem_cons, List.not_mem_nil, or_false] at hl <;>
    (rcases hl with rfl | rfl) <;> rfl

theorem foldl_targetIter_logs (e : Str → TStep → Bool) (ts : List Target) :
    ∀ (st : LoopState) (l : LogMsg), l ∈ (ts.foldl (targetIter e) st).logs →
      l ∈ st.logs ∨ isTargetLog l = true := by
  induction ts with
  | nil => intro st l hl; exact Or.inl hl
  | cons t ts ih =>
    intro st l hl
    rcases ih _ l hl with h | h
    · unfold targetIter at h
      simp only [List.mem_append, List.mem_cons] at h
      rcases h with h | h | h
      · exact Or.inl h
      · subst h; exact Or.inr rfl
      · exact Or.inr (targetTry_logs_target e t l h)
    · exact Or.inr h

theorem runTargetLoop_logs_target (e : Str → TStep → Bool) (ts : List Target) :
    ∀ l ∈ (runTargetLoop e ts).logs, isTargetLog l = true := by
  intro l hl
  rcases foldl_targetIter_logs e ts ⟨[], []⟩ l hl with h | h
  · exact absurd h (List.not_mem_nil l)
  · exact h

theorem mem_if_list {α : Type} {c : Prop} [Decidable c] {a : α} {l : List α} :
    (a ∈ if c then l else []) ↔ (c ∧ a ∈ l) := by
  split <;> simp [*]

/-- C9: if one of the three vendor files is absent, its `existsSync` guard
(lines 127, 154) silently skips that file's patches and backup: the file and
its backup are untouched by STAGE 0, no log line for that file is printed
anywhere in the run, and the run still proceeds to completion with exit
status 0 — a missing vendor file is not a fatal patching failure. -/
theorem missing_vendor_file_skipped (inp : RunInput) (targets : List Target)
    (fs : FS) (hok : ∀ p, inp.ok p = true) (hpkg : existsF fs .userPkg = true) :
    (fs .libc = none →
      stage0FS inp.mods fs .libc = none ∧
      stage0FS inp.mods fs .libcBak = fs .libcBak ∧
      LogMsg.patchedLibc ∉ (runOrch inp targets fs).logs ∧
      (runOrch inp targets fs).exit = 0) ∧
    (fs .qjsC = none →
      stage0FS inp.mods fs .qjsC = none ∧
      stage0FS inp.mods fs .qjsCBak = fs .qjsCBak ∧
      LogMsg.patchedQjs ∉ (runOrch inp targets fs).logs ∧
      (runOrch inp targets fs).exit = 0) ∧
    (fs .qjscC = none →
      stage0FS inp.mods fs .qjscC = none ∧
      stage0FS inp.mods fs .qjscCBak = fs .qjscCBak ∧
      LogMsg.patchedQjsc ∉ (runOrch inp targets fs).logs ∧
      (runOrch inp targets fs).exit = 0) := by
  obtain ⟨hfs, hexit, hlogs⟩ := runOrch_fs_allOk inp targets fs hok hpkg
  obtain ⟨-, -, -, -, -, -, hl3⟩ := stage3_char (stage0FS inp.mods fs)
  refine ⟨?_, ?_, ?_⟩
  · intro hsrc
    refine ⟨by rw [stage0FS_at_libc, hsrc], by rw [stage0FS_at_libcBak, hsrc],
      ?_, hexit⟩
    rw [hlogs, hl3]
    simp only [hsrc, Option.isSome_none, Bool.false_eq_true, if_false,
      List.mem_cons, List.mem_append, List.nil_append, mem_if_list,
      List.mem_singleton]
    intro h
    simp at h
    have := runTargetLoop_logs_target inp.execOk targets _ h
    exact Bool.noConfusion this
  · intro hsrc
    refine ⟨by rw [stage0FS_at_qjsC, hsrc], by rw [stage0FS_at_qjsCBak, hsrc],
      ?_, hexit⟩
    rw [hlogs, hl3]
    simp only [hsrc, Option.isSome_none, Bool.false_eq_true, if_false,
      List.mem_cons, List.mem_append, List.nil_append, mem_if_list,
      List.mem_singleton]
    intro h
    simp at h
    have := runTargetLoop_logs_target inp.execOk targets _ h
    exact Bool.noConfusion this
  · intro hsrc
    refine ⟨by rw [stage0FS_at_qjscC, hsrc],
      by rw [stage0FS_at_qjscCBak, hsrc], ?_, hexit⟩
    rw [hlogs, hl3]
    simp only [hsrc, Option.isSome_none, Bool.false_eq_true, if_false,
      List.mem_cons, List.mem_append, List.nil_append, mem_if_list,
      List.mem_singleton]
    intro h
    simp at h
    have := runTargetLoop_logs_target inp.execOk targets _ h
    exact Bool.noConfusion this

/-- A tree with the manifest but none of the three vendor files. -/
def fsNoVendor : FS := fun p =>
  match p with
  | .userPkg => some "PKG".data
  | _ => none

/-- Witness for C9 at a concrete run with `quickjs-libc.c` absent. -/
theorem missing_vendor_file_skipped_witness :
    stage0FS inpAllOk.mods fsNoVendor .libc = none ∧
    stage0FS inpAllOk.mods fsNoVendor .libcBak = fsNoVendor .libcBak ∧
    LogMsg.patchedLibc ∉
      (runOrch inpAllOk (targetRegistry "app".data) fsNoVendor).logs ∧
    (runOrch inpAllOk (targetRegistry "app".data) fsNoVendor).exit = 0 :=
  (missing_vendor_file_skipped inpAllOk (targetRegistry "app".data) fsNoVendor
    (fun _ => rfl) (by decide)).1 rfl

/-! ### C10: a pre-existing backup is never overwritten -/

/-- C10: a backup that already exists when the run starts is never
overwritten — the conditional `cpSync` (lines 128, 155) only copies when no
backup exists — so after STAGE 0 the backup still holds its original content,
and the STAGE 3 rename restores the vendor source to exactly that oldest
captured content (consuming the backup). -/
theorem stale_backup_preserved (inp : RunInput) (targets : List Target)
    (fs : FS) (hok : ∀ p, inp.ok p = true) (hpkg : existsF fs .userPkg = true) :
    (∀ b, fs .libcBak = some b →
      stage0FS inp.mods fs .libcBak = some b ∧
      (runOrch inp targets fs).fs .libc = some b ∧
      (runOrch inp targets fs).fs .libcBak = none) ∧
    (∀ b, fs .qjsCBak = some b →
      stage0FS inp.mods fs .qjsCBak = some b ∧
      (runOrch inp targets fs).fs .qjsC = some b ∧
      (runOrch inp targets fs).fs .qjsCBak = none) ∧
    (∀ b, fs .qjscCBak = some b →
      stage0FS inp.mods fs .qjscCBak = some b ∧
      (runOrch inp targets fs).fs .qjscC = some b ∧
      (runOrch inp targets fs).fs .qjscCBak = none) := by
  obtain ⟨hfs, -, -⟩ := runOrch_fs_allOk inp targets fs hok hpkg
  obtain ⟨hl, hq, hqc, hbl, hbq, hbqc, -⟩ := stage3_char (stage0FS inp.mods fs)
  refine ⟨?_, ?_, ?_⟩
  · intro b hb
    have hmid : stage0FS inp.mods fs .libcBak = some b := by
      rw [stage0FS_at_libcBak]
      cases hsrc : fs .libc <;> simp [hb]
    exact ⟨hmid, by rw [hfs, hl, hmid], by rw [hfs]; exact hbl⟩
  · intro b hb
    have hmid : stage0FS inp.mods fs .qjsCBak = some b := by
      rw [stage0FS_at_qjsCBak]
      cases hsrc : fs .qjsC <;> simp [hb]
    exact ⟨hmid, by rw [hfs, hq, hmid], by rw [hfs]; exact hbq⟩
  · intro b hb
    have hmid : stage0FS inp.mods fs .qjscCBak = some b := by
      rw [stage0FS_at_qjscCBak]
      cases hsrc : fs .qjscC <;> simp [hb]
    exact ⟨hmid, by rw [hfs, hqc, hmid], by rw [hfs]; exact hbqc⟩

/-- A tree left behind by an interrupted earlier run: patched sources on
disk, stale backups holding the pristine contents. -/
def fsStale : FS := fun p =>
  match p with
  | .libc => some "PATCHED LIBC".data
  | .libcBak => some "OLD LIBC".data
  | .qjsC => some "PATCHED QJS".data
  | .qjsCBak => some "OLD QJS".data
  | .qjscC => some "PATCHED QJSC".data
  | .qjscCBak => some "OLD QJSC".data
  | .userPkg => some "PKG".data
  | .execSrc => none

/-- Witness for C10: the stale backups survive STAGE 0 and are what STAGE 3
renames over the sources. -/
theorem stale_backup_preserved_witness :
    stage0FS inpAllOk.mods fsStale .libcBak = some "OLD LIBC".data ∧
    (runOrch inpAllOk (targetRegistry "app".data) fsStale).fs .libc =
      some "OLD LIBC".data ∧
    (runOrch inpAllOk (targetRegistry "app".data) fsStale).fs .libcBak =
      none :=
  (stale_backup_preserved inpAllOk (targetRegistry "app".data) fsStale
    (fun _ => rfl) (by decide)).1 "OLD LIBC".data rfl

/-! ### C7: a per-target failure does not affect the other targets -/

/-- The target a loop log line belongs to. -/
def logOwner : LogMsg → Option Str
  | .compilingFor i => some i
  | .buildToolsOk i => some i
  | .binaryBuilt i => some i
  | .compileFailed i => some i
  | _ => none

theorem targetTry_congr (f g : Str → TStep → Bool) (t : Target)
    (h : ∀ s, f t.id s = g t.id s) : targetTry f t = targetTry g t := by
  unfold targetTry
  rw [h .buildQjs, h .buildQjsc, h .precompile, h .linkApp]

theorem targetTry_arts_owner (e : Str → TStep → Bool) (t : Target) :
    ∀ a ∈ (targetTry e t).1, a.1 = t.id := by
  intro a ha
  unfold targetTry at ha
  split_ifs at ha <;> fin_cases ha <;> rfl

theorem targetTry_logs_owner (e : Str → TStep → Bool) (t : Target) :
    ∀ l ∈ (targetTry e t).2, logOwner l = some t.id := by
  intro l hl
  unfold targetTry at hl
  split_ifs at hl <;> fin_cases hl <;> rfl

theorem filter_owned_arts_nil (tid : Str) (l : List (Str × Str))
    (h : ∀ a ∈ l, a.1 = tid) :
    l.filter (fun a => decide (a.1 ≠ tid)) = [] := by
  induction l with
  | nil => rfl
  | cons x l ih =>
    have hx : (decide (x.1 ≠ tid)) = false := by
      simp [h x (List.mem_cons_self x l)]
    have ht := ih fun a ha => h a (List.mem_cons_of_mem x ha)
    simp only [List.filter_cons, hx, Bool.false_eq_true, if_false]
    exact ht

theorem filter_owned_logs_nil (tid : Str) (l : List LogMsg)
    (h : ∀ m ∈ l, logOwner m = some tid) :
    l.filter (fun m => decide (logOwner m ≠ some tid)) = [] := by
  induction l with
  | nil => rfl
  | cons x l ih =>
    have hx : (decide (logOwner x ≠ some tid)) = false := by
      simp [h x (List.mem_cons_self x l)]
    have ht := ih fun m hm => h m (List.mem_cons_of_mem x hm)
    simp only [List.filter_cons, hx, Bool.false_eq_true, if_false]
    exact ht

theorem foldl_targetIter_filter (f g : Str → TStep → Bool) (tid : Str) :
    ∀ (ts : List Target),
      (∀ t ∈ ts, t.id ≠ tid → ∀ s, f t.id s = g t.id s) →
      ∀ (st1 st2 : LoopState),
        st1.arts.filter (fun a => decide (a.1 ≠ tid)) =
          st2.arts.filter (fun a => decide (a.1 ≠ tid)) →
        st1.logs.filter (fun l => decide (logOwner l ≠ some tid)) =
          st2.logs.filter (fun l => decide (logOwner l ≠ some tid)) →
        (ts.foldl (targetIter f) st1).arts.filter
            (fun a => decide (a.1 ≠ tid)) =
          (ts.foldl (targetIter g) st2).arts.filter
            (fun a => decide (a.1 ≠ tid)) ∧
        (ts.foldl (targetIter f) st1).logs.filter
            (fun l => decide (logOwner l ≠ some tid)) =
          (ts.foldl (targetIter g) st2).logs.filter
            (fun l => decide (logOwner l ≠ some tid)) := by
  intro ts
  induction ts with
  | nil => exact fun _ st1 st2 ha hl => ⟨ha, hl⟩
  | cons t ts ih =>
    intro hagree st1 st2 ha hl
    refine ih (fun t' ht' => hagree t' (List.mem_cons_of_mem _ ht')) _ _ ?_ ?_
    · show (st1.arts ++ (t.id, "build/".data ++ t.id) :: (targetTry f t).1).filter
          _ = (st2.arts ++ (t.id, "build/".data ++ t.id) :: (targetTry g t).1).filter _
      rw [List.filter_append, List.filter_append, ha]
      by_cases hid : t.id = tid
      · have hf : ((t.id, "build/".data ++ t.id) :: (targetTry f t).1).filter
            (fun a => decide (a.1 ≠ tid)) = [] := by
          refine filter_owned_arts_nil tid _ ?_
          intro a hmem
          rcases List.mem_cons.mp hmem with rfl | hmem
          · exact hid
          · exact (targetTry_arts_owner f t a hmem).trans hid
        have hg : ((t.id, "build/".data ++ t.id) :: (targetTry g t).1).filter
            (fun a => decide (a.1 ≠ tid)) = [] := by
          refine filter_owned_arts_nil tid _ ?_
          intro a hmem
          rcases List.mem_cons.mp hmem with rfl | hmem
          · exact hid
          · exact (targetTry_arts_owner g t a hmem).trans hid
        rw [hf, hg]
      · rw [targetTry_congr f g t (hagree t (List.mem_cons_self t ts) hid)]
    · show (st1.logs ++ .compilingFor t.id :: (targetTry f t).2).filter _ =
          (st2.logs ++ .compilingFor t.id :: (targetTry g t).2).filter _
      rw [List.filter_append, List.filter_append, hl]
      by_cases hid : t.id = tid
      · have hf : (LogMsg.compilingFor t.id :: (targetTry f t).2).filter
            (fun l => decide (logOwner l ≠ some tid)) = [] := by
          refine filter_owned_logs_nil tid _ ?_
          intro m hmem
          rcases List.mem_cons.mp hmem with rfl | hmem
          · rw [← hid]; rfl
          · exact (targetTry_logs_owner f t m hmem).trans (by rw [hid])
        have hg : (LogMsg.compilingFor t.id :: (targetTry g t).2).filter
            (fun l => decide (logOwner l ≠ some tid)) = [] := by
          refine filter_owned_logs_nil tid _ ?_
          intro m hmem
          rcases List.mem_cons.mp hmem with rfl | hmem
          · rw [← hid]; rfl
          · exact (targetTry_logs_owner g t m hmem).trans (by rw [hid])
        rw [hf, hg]
      · rw [targetTry_congr f g t (hagree t (List.mem_cons_self t ts) hid)]

/-- C7: each target's `try`/`catch` boundary isolates its failures.  If two
runs' tool outcomes agree on every target except one (`tid`), the artifacts
(build tree, helper binaries, precompiled source, output binary) and log
lines belonging to every OTHER target are identical in the two runs: failing
one target leaves the rest exactly as if it had succeeded. -/
theorem target_failure_isolated (f g : Str → TStep → Bool)
    (ts : List Target) (tid : Str)
    (hagree : ∀ t ∈ ts, t.id ≠ tid → ∀ s, f t.id s = g t.id s) :
    (runTargetLoop f ts).arts.filter (fun a => decide (a.1 ≠ tid)) =
      (runTargetLoop g ts).arts.filter (fun a => decide (a.1 ≠ tid)) ∧
    (runTargetLoop f ts).logs.filter (fun l => decide (logOwner l ≠ some tid)) =
      (runTargetLoop g ts).logs.filter
        (fun l => decide (logOwner l ≠ some tid)) :=
  foldl_targetIter_filter f g tid ts hagree ⟨[], []⟩ ⟨[], []⟩ rfl rfl

/-- Witness for C7: over the full registry, a run in which every tool call of
target `x86-windows-gnu` fails produces, for all six other targets, exactly
the artifacts and logs of the all-successful run. -/
theorem target_failure_isolated_witness :
    (runTargetLoop (fun i _ => decide (i ≠ "x86-windows-gnu".data))
        (targetRegistry "app".data)).arts.filter
        (fun a => decide (a.1 ≠ "x86-windows-gnu".data)) =
      (runTargetLoop (fun _ _ => true)
        (targetRegistry "app".data)).arts.filter
        (fun a => decide (a.1 ≠ "x86-windows-gnu".data)) ∧
    (runTargetLoop (fun i _ => decide (i ≠ "x86-windows-gnu".data))
        (targetRegistry "app".data)).logs.filter
        (fun l => decide (logOwner l ≠ some "x86-windows-gnu".data)) =
      (runTargetLoop (fun _ _ => true)
        (targetRegistry "app".data)).logs.filter
        (fun l => decide (logOwner l ≠ some "x86-windows-gnu".data)) :=
  target_failure_isolated (fun i _ => decide (i ≠ "x86-windows-gnu".data))
    (fun _ _ => true) (targetRegistry "app".data) "x86-windows-gnu".data
    (fun _ _ hne _ => decide_eq_true hne)

end QJZ

